import Mathlib

/-!
Verification of the QML ListModel to C++ generator (src/listmodel-to-cpp.py).

The program is a single-shot batch converter: it reads a QML file, checks that
a ListModel root marker is present, extracts every ListElement block body with
the regex ListElement\s*{([^}]*)}, parses property/value pairs from each body
with the regex (\w+)\s*:\s*(.*), takes the property-name set of the first
element as the schema, validates that every later element has the same name
set, and emits a C++ header and source file.

The embedding below models the program over List Char.  Regex matching is
translated operationally: the three patterns used by the source contain no
genuine backtracking (each greedy sub-pattern is followed by a character that
the sub-pattern cannot consume), so each findall step is a deterministic
take/drop computation, and the findall scan is a left-to-right non-overlapping
scan that advances by at least one character per step (modelled with fuel equal
to the input length, which is always sufficient).

Python sets have no observable canonical order; the embedding threads an
explicit enumeration oracle (a function reordering a canonical duplicate-free
list) through every place where the source converts a set to an iterable: the
call sorted(properties) and the formatting of a symmetric difference in the
schema-mismatch message.  Theorems quantify over all permutation oracles.

Observable behaviour is modelled as a trace of effects: writes to stdout,
file writes (which overwrite), process exit, and an uncaught Python exception
(reachable when the first element defines no property, so that properties[0]
on line 94 of the source raises IndexError).
-/

/-- Whitespace characters of the regex class \s (ASCII range, as used by the
input format). -/
def isSpaceCh (c : Char) : Bool :=
  c = ' ' || c = '\t' || c = '\n' || c = '\r' || c = '\x0b' || c = '\x0c'

/-- Word characters of the regex class \w (ASCII identifiers, as used by the
input format). -/
def isWordCh (c : Char) : Bool :=
  ('a' ≤ c && c ≤ 'z') || ('A' ≤ c && c ≤ 'Z') || ('0' ≤ c && c ≤ '9') || c = '_'

/-- Opening brace character, written numerically. -/
def lbrace : Char := Char.ofNat 123

/-- Closing brace character, written numerically. -/
def rbrace : Char := Char.ofNat 125

/-- Match a literal character sequence at the head of the input and return the
remainder, or none. -/
def matchLit : List Char → List Char → Option (List Char)
  | [], cs => some cs
  | _ :: _, [] => none
  | p :: ps, c :: cs => if c = p then matchLit ps cs else none

/-- Match of the anchored pattern \s*ListModel\s*{ at one position.  The
greedy \s* runs end at the first non-space character, so the literal parts
must start exactly there. -/
def matchRootAt (cs : List Char) : Bool :=
  match matchLit ("ListModel".data) (cs.dropWhile isSpaceCh) with
  | none => false
  | some rest =>
    match rest.dropWhile isSpaceCh with
    | c :: _ => c = lbrace
    | [] => false

/-- Search for the pattern at a position right after some newline. -/
def searchAfterNewline : List Char → Bool
  | [] => false
  | c :: rest => (c = '\n' && matchRootAt rest) || searchAfterNewline rest

/-- Model of re.search with pattern ^\s*ListModel\s*{ and flag MULTILINE
(line 19 of the source): the anchor ^ matches at the start of the input or
right after any newline. -/
def hasRootMarker (cs : List Char) : Bool :=
  matchRootAt cs || searchAfterNewline cs

/-- Match of the pattern ListElement\s*{([^}]*)} at one position, returning
the captured body and the remainder after the match.  The class [^}]* cannot
cross a closing brace, so the capture ends at the first closing brace, which
the pattern then consumes. -/
def matchElementAt (cs : List Char) : Option (List Char × List Char) :=
  match matchLit ("ListElement".data) cs with
  | none => none
  | some r1 =>
    match r1.dropWhile isSpaceCh with
    | [] => none
    | c :: r2 =>
      if c = lbrace then
        match r2.dropWhile (fun d => d ≠ rbrace) with
        | [] => none
        | _ :: r3 => some (r2.takeWhile (fun d => d ≠ rbrace), r3)
      else none

/-- Left-to-right non-overlapping scan of re.findall, with fuel.  On a failed
position the scan advances one character; on a match it continues after the
match.  Every match consumes at least one character, so fuel equal to the
input length is sufficient. -/
def findElemsAux : Nat → List Char → List (List Char)
  | 0, _ => []
  | _, [] => []
  | fuel + 1, c :: rest =>
    match matchElementAt (c :: rest) with
    | some (body, after) => body :: findElemsAux fuel after
    | none => findElemsAux fuel rest

/-- Model of re.findall with pattern ListElement\s*{([^}]*)} (line 24 of the
source): the list of element block bodies. -/
def findElems (cs : List Char) : List (List Char) :=
  findElemsAux cs.length cs

/-- Match of the pattern (\w+)\s*:\s*(.*) at one position.  The name is the
maximal word run (a shorter run cannot be followed by \s*: since the next
character would be a word character); the value is the rest of the line after
the greedy whitespace run following the colon, which may cross newlines. -/
def matchPropAt (cs : List Char) : Option ((String × String) × List Char) :=
  match cs.takeWhile isWordCh with
  | [] => none
  | n :: ame =>
    match (cs.dropWhile isWordCh).dropWhile isSpaceCh with
    | [] => none
    | c :: r2 =>
      if c = ':' then
        let r3 := r2.dropWhile isSpaceCh
        some ((⟨n :: ame⟩, ⟨r3.takeWhile (fun d => d ≠ '\n')⟩),
              r3.dropWhile (fun d => d ≠ '\n'))
      else none

/-- Findall scan for property/value pairs, with fuel (same discipline as
findElemsAux). -/
def findPropsAux : Nat → List Char → List (String × String)
  | 0, _ => []
  | _, [] => []
  | fuel + 1, c :: rest =>
    match matchPropAt (c :: rest) with
    | some (pv, after) => pv :: findPropsAux fuel after
    | none => findPropsAux fuel rest

/-- Model of re.findall with pattern (\w+)\s*:\s*(.*) (lines 34 and 43 of the
source): the ordered property/value pairs of one element body. -/
def findProps (cs : List Char) : List (String × String) :=
  findPropsAux cs.length cs

/-- Canonical duplicate-free representative of a Python set built from a list
(first occurrences kept, in first-occurrence order).  The accumulator holds
the names already seen. -/
def setListAux (seen : List String) : List String → List String
  | [] => []
  | x :: xs => if x ∈ seen then setListAux seen xs else x :: setListAux (x :: seen) xs

/-- Canonical representative of the set comprehension on lines 35 and 44 of
the source. -/
def setList (l : List String) : List String :=
  setListAux [] l

/-- Order-insensitive equality of the two name sets, the comparison
current_props != properties on line 45 of the source. -/
def setEq (a b : List String) : Bool :=
  a.all (fun x => decide (x ∈ b)) && b.all (fun x => decide (x ∈ a))

/-- Canonical listing of the symmetric difference computed on line 46 of the
source (the enumeration oracle is applied to it before display). -/
def symmDiffList (a b : List String) : List String :=
  a.filter (fun x => decide (x ∉ b)) ++ b.filter (fun x => decide (x ∉ a))

/-- Validation loop of lines 42 to 48 of the source over the already parsed
later elements: the first element whose name set differs from the schema
stops the run and yields the symmetric difference. -/
def validateElems (properties : List String) : List (List (String × String)) → Option (List String)
  | [] => none
  | ps :: rest =>
    let current := setList (ps.map Prod.fst)
    if setEq current properties then validateElems properties rest
    else some (symmDiffList properties current)

/-- Containers of raw values built by the per-element appends on lines 39 to
40 and 50 to 51 of the source: appending every pair of every element in order
is concatenation in order, so the container of a property lists the values of
all pairs carrying that name, across all elements, in source order. -/
def valuesOf (parsed : List (List (String × String))) (p : String) : List String :=
  ((parsed.flatten.filter (fun pv => decide (pv.1 = p))).map Prod.snd)

/-- Function first_big_case of the source (lines 8 to 9), with the Python
IndexError on the empty string made visible as none. -/
def first_big_case_opt (s : String) : Option String :=
  match s.data with
  | [] => none
  | c :: cs => some ⟨c.toUpper :: cs⟩

/-- Total wrapper for first_big_case; the default branch is unreachable on
every string produced by findProps (theorem prop_names_nonempty below). -/
def first_big_case (s : String) : String :=
  (first_big_case_opt s).getD ""

/-- ASCII lowercasing of str.lower() applied on lines 87, 128 and 129 of the
source. -/
def lowerStr (s : String) : String :=
  ⟨s.data.map Char.toLower⟩

/-- Boolean code-point lexicographic comparison of two character lists, the
order used by the Python sorted builtin on strings. -/
def lexLeB : List Char → List Char → Bool
  | [], _ => true
  | _ :: _, [] => false
  | a :: as, b :: bs =>
    if a.toNat < b.toNat then true
    else if a.toNat = b.toNat then lexLeB as bs
    else false

/-- Alphabetical (code-point lexicographic) order on strings, as used by
sorted(properties) on line 54 of the source. -/
def strLe (a b : String) : Prop :=
  lexLeB a.data b.data = true

instance : DecidableRel strLe := fun a b => by
  unfold strLe; infer_instance

/-- Argument list of the insert method signature (line 80 of the source). -/
def insertArgsOf (properties : List String) : String :=
  String.intercalate ", " (properties.map (fun p => "const QString &" ++ p))

/-- Role enumerator lines of the header (lines 64 to 65 of the source), one
per property, in the order of the given property list. -/
def roleEnumLines (properties : List String) : List String :=
  properties.map (fun p => "        " ++ first_big_case p ++ "Role,\n")

/-- Member field lines of the header (lines 76 to 77 of the source), one per
property, in the order of the given property list. -/
def memberLines (properties : List String) : List String :=
  properties.map (fun p => "    QStringList m_" ++ p ++ "s;\n")

/-- Header artifact h_content (lines 57 to 84 of the source). -/
def h_content_of (class_name : String) (properties : List String) : String :=
  "#pragma once\n\n" ++
  "#include <QAbstractListModel>\n#include <QStringList>\n\n" ++
  "class " ++ class_name ++ " : public QAbstractListModel\n\x7b\n    Q_OBJECT\npublic:\n" ++
  "    explicit " ++ class_name ++ "(QObject *parent = nullptr);\n\n" ++
  "    enum Roles \x7b\n" ++
  String.join (roleEnumLines properties) ++
  "    \x7d;\n\n" ++
  "    int rowCount(const QModelIndex &parent = QModelIndex()) const override;\n" ++
  "    QVariant data(const QModelIndex &index, int role = Qt::DisplayRole) const override;\n" ++
  "    QHash<int, QByteArray> roleNames() const override;\n\n" ++
  "private:\n" ++
  String.join (memberLines properties) ++
  "\n    void insert(" ++ insertArgsOf properties ++ ");\n" ++
  "    void populateModel();\n\x7d;\n\n"

/-- Include line and constructor definition of the source artifact (lines 87
to 88 of the source). -/
def ctorPart (class_name : String) : String :=
  "#include \"" ++ lowerStr class_name ++ ".h\"\n\n" ++
  class_name ++ "::" ++ class_name ++
  "(QObject *parent)\n    : QAbstractListModel(parent)\n\x7b\n    populateModel();\n\x7d\n\n"

/-- Body of the rowCount method (lines 91 to 94 of the source): it returns
the size of the container of the first entry of the sorted property list.
Python raises IndexError here when the property list is empty; the generator
below reaches this definition only on a non-empty list. -/
def rowCountPart (class_name : String) (properties : List String) : String :=
  "// Returns the number of rows in the model\n" ++
  "int " ++ class_name ++ "::rowCount(const QModelIndex &parent) const\n\x7b\n" ++
  "    if (parent.isValid())\n        return 0;\n" ++
  "    return static_cast<int>(m_" ++ properties.getD 0 "" ++ "s.size());\n\x7d\n\n"

/-- Body of the data method (lines 96 to 102 of the source). -/
def dataPart (class_name : String) (properties : List String) : String :=
  "// Returns data for each role\n" ++
  "QVariant " ++ class_name ++ "::data(const QModelIndex &index, int role) const\n\x7b\n" ++
  "    if (!index.isValid())\n        return QVariant();\n\n" ++
  String.join (properties.map (fun p =>
    "    if (role == " ++ first_big_case p ++ "Role)\n" ++
    "        return m_" ++ p ++ "s.at(index.row());\n")) ++
  "\n    return QVariant();\n\x7d\n\n"

/-- Body of the roleNames method (lines 104 to 109 of the source). -/
def roleNamesPart (class_name : String) (properties : List String) : String :=
  "// Returns role names to be used in QML\n" ++
  "QHash<int, QByteArray> " ++ class_name ++ "::roleNames() const\n\x7b\n" ++
  "    QHash<int, QByteArray> roles;\n" ++
  String.join (properties.map (fun p =>
    "    roles[" ++ first_big_case p ++ "Role] = \"" ++ p ++ "\";\n")) ++
  "    return roles;\n\x7d\n\n"

/-- Body of the insert method (lines 112 to 116 of the source). -/
def insertPart (class_name : String) (properties : List String) : String :=
  "// Inserts a single entry into the model\n" ++
  "void " ++ class_name ++ "::insert(" ++ insertArgsOf properties ++ ")\n\x7b\n" ++
  String.join (properties.map (fun p =>
    "    m_" ++ p ++ "s.append(" ++ p ++ ");\n")) ++
  "\x7d\n\n"

/-- Replacement of every occurrence of qsTr( by tr(, the str.replace call on
line 122 of the source, scanning left to right without overlap. -/
def replaceQsTr : List Char → List Char
  | 'q' :: 's' :: 'T' :: 'r' :: '(' :: cs => 't' :: 'r' :: '(' :: replaceQsTr cs
  | c :: cs => c :: replaceQsTr cs
  | [] => []

/-- Arguments of one emitted insert call (line 122 of the source): for each
property, in the order of the given property list, the value stored for row
i with the qsTr( substitution applied.  Python raises IndexError when the
container is shorter than i; on every reachable success path the containers
have at least num_elements entries, so the default is never taken. -/
def insertCallArgs (values : String → List String) (properties : List String) (i : Nat) : List String :=
  properties.map (fun p => ⟨replaceQsTr ((values p).getD i "").data⟩)

/-- One emitted populateModel line (lines 122 to 123 of the source). -/
def populateLine (values : String → List String) (properties : List String) (i : Nat) : String :=
  "    insert(" ++ String.intercalate ", " (insertCallArgs values properties i) ++ ");\n"

/-- Body of the populateModel method (lines 119 to 124 of the source). -/
def populatePart (class_name : String) (properties : List String)
    (values : String → List String) (num_elements : Nat) : String :=
  "// Populates the model with static data\n" ++
  "void " ++ class_name ++ "::populateModel()\n\x7b\n" ++
  String.join ((List.range num_elements).map (populateLine values properties)) ++
  "\x7d\n"

/-- Source artifact cpp_content (lines 87 to 124 of the source). -/
def cpp_content_of (class_name : String) (properties : List String)
    (values : String → List String) (num_elements : Nat) : String :=
  ctorPart class_name ++
  rowCountPart class_name properties ++
  dataPart class_name properties ++
  roleNamesPart class_name properties ++
  insertPart class_name properties ++
  populatePart class_name properties values num_elements

/-- Part of the path after the last slash, the os.path.basename of CPython
(posixpath). -/
def basenameL (p : List Char) : List Char :=
  (p.reverse.takeWhile (fun c => c ≠ '/')).reverse

/-- Root part of os.path.splitext of CPython applied to a basename: the text
before the last dot, unless every character before that dot is itself a dot,
in which case nothing is split off. -/
def splitextBase (b : List Char) : List Char :=
  if '.' ∈ b then
    let pre := ((b.reverse.dropWhile (fun c => c ≠ '.')).drop 1).reverse
    if pre.any (fun c => c ≠ '.') then pre else b
  else b

/-- Computation base_name = os.path.splitext(os.path.basename(path))[0] on
line 12 of the source; the class name equals it (line 13). -/
def base_name_of (path : String) : String :=
  ⟨splitextBase (basenameL path.data)⟩

/-- Model of os.path.dirname of CPython (posixpath): the part up to the last
slash, with trailing slashes stripped unless the part is all slashes; empty
when there is no slash. -/
def dirnameL (p : List Char) : List Char :=
  if '/' ∈ p then
    let head := (p.reverse.dropWhile (fun c => c ≠ '/')).reverse
    if head.all (fun c => c = '/') then head
    else (head.reverse.dropWhile (fun c => c = '/')).reverse
  else []

/-- Model of os.path.join of CPython (posixpath) for one component: an
absolute component replaces the head; otherwise a slash separates unless the
head is empty or already ends in a slash. -/
def joinPath (head : List Char) (comp : List Char) : List Char :=
  match comp with
  | '/' :: _ => comp
  | _ =>
    if head = [] then comp
    else match head.getLast? with
      | some '/' => head ++ comp
      | _ => head ++ '/' :: comp

/-- Header output path computed on line 128 of the source. -/
def headerPathOf (path : String) : String :=
  ⟨joinPath (dirnameL path.data) ((lowerStr (base_name_of path)).data ++ ".h".data)⟩

/-- Source output path computed on line 129 of the source. -/
def cppPathOf (path : String) : String :=
  ⟨joinPath (dirnameL path.data) ((lowerStr (base_name_of path)).data ++ ".cpp".data)⟩

/-- Messages the program prints to standard output, one constructor per print
call of the source (lines 20, 27, 47, 137, 142, 147). -/
inductive Msg where
  | usage
  | fileNotExist (path : String)
  | rootError
  | noElementsError
  | schemaError (diff : List String)
  | generated (headerFile cppFile : String)
deriving DecidableEq

/-- Observable effects of a run: a line printed to standard output, a file
written (creating or overwriting), process termination with an exit status,
or an uncaught Python exception (traceback on standard error, exit status 1,
no stdout message). -/
inductive Effect where
  | print (m : Msg)
  | writeFile (path content : String)
  | exitWith (code : Nat)
  | crash
deriving DecidableEq

/-- Effect trace of generate_cpp_class (lines 11 to 137 of the source) on the
given input path and file content.  The parameter σ is the set-enumeration
oracle: it gives the iteration order of the two Python sets that the source
turns into sequences (sorted(properties) on line 54 and the formatted
symmetric difference on line 47). -/
def generate_cpp_class (σ : List String → List String)
    (qml_file_path : String) (content : String) : List Effect :=
  let class_name := base_name_of qml_file_path
  if hasRootMarker content.data then
    match findElems content.data with
    | [] => [.print .noElementsError, .exitWith 1]
    | e0 :: rest =>
      let properties := setList ((findProps e0).map Prod.fst)
      match validateElems properties (rest.map findProps) with
      | some diff => [.print (.schemaError (σ diff)), .exitWith 1]
      | none =>
        let values := valuesOf ((e0 :: rest).map findProps)
        let num_elements := (e0 :: rest).length
        match List.insertionSort strLe (σ properties) with
        | [] => [.crash]
        | p0 :: ps =>
          [.writeFile (headerPathOf qml_file_path) (h_content_of class_name (p0 :: ps)),
           .writeFile (cppPathOf qml_file_path)
             (cpp_content_of class_name (p0 :: ps) values num_elements),
           .print (.generated (headerPathOf qml_file_path) (cppPathOf qml_file_path)),
           .exitWith 0]
  else [.print .rootError, .exitWith 1]

/-- Existence test of os.path.exists against the modelled file system, an
association list from paths to contents. -/
def fsExists (fs : List (String × String)) (p : String) : Bool :=
  (fs.lookup p).isSome

/-- Content read from the modelled file system. -/
def fsRead (fs : List (String × String)) (p : String) : String :=
  (fs.lookup p).getD ""

/-- Effect trace of the whole program (lines 140 to 150 of the source): argv
is the full argument vector including the program name, fs the file system at
invocation time. -/
def mainRun (σ : List String → List String)
    (argv : List String) (fs : List (String × String)) : List Effect :=
  if argv.length ≠ 2 then [.print .usage, .exitWith 1]
  else
    let qml_file := argv.getD 1 ""
    if fsExists fs qml_file then generate_cpp_class σ qml_file (fsRead fs qml_file)
    else [.print (.fileNotExist qml_file), .exitWith 1]

/-- Application of one effect to the modelled file system: a file write binds
the path to the new content, shadowing (overwriting) any previous binding. -/
def applyEffect (fs : List (String × String)) : Effect → List (String × String)
  | .writeFile p c => (p, c) :: fs
  | _ => fs

/-- Application of a whole trace to the modelled file system. -/
def applyEffects (fs : List (String × String)) (tr : List Effect) : List (String × String) :=
  List.foldl applyEffect fs tr

/-! ### Order lemmas for the alphabetical comparison -/

theorem char_toNat_inj {a b : Char} (h : a.toNat = b.toNat) : a = b :=
  Char.ext (UInt32.ext h)

theorem lexLeB_refl : ∀ a, lexLeB a a = true
  | [] => rfl
  | _ :: as => by simp [lexLeB, lexLeB_refl as]

theorem lexLeB_total : ∀ a b, lexLeB a b = true ∨ lexLeB b a = true := by
  intro a
  induction a with
  | nil => intro b; left; rfl
  | cons x xs ih =>
    intro b
    cases b with
    | nil => right; rfl
    | cons y ys =>
      rcases Nat.lt_trichotomy x.toNat y.toNat with h | h | h
      · left; simp [lexLeB, h]
      · rcases ih ys with h4 | h4
        · left; simp [lexLeB, h, h4]
        · right; simp [lexLeB, h.symm, h4]
      · right; simp [lexLeB, h]

theorem lexLeB_trans : ∀ a b c, lexLeB a b = true → lexLeB b c = true → lexLeB a c = true := by
  intro a
  induction a with
  | nil => intro b c _ _; rfl
  | cons x xs ih =>
    intro b c hab hbc
    cases b with
    | nil => simp [lexLeB] at hab
    | cons y ys =>
      cases c with
      | nil => simp [lexLeB] at hbc
      | cons z zs =>
        rcases Nat.lt_trichotomy x.toNat y.toNat with h1 | h1 | h1 <;>
          rcases Nat.lt_trichotomy y.toNat z.toNat with h2 | h2 | h2
        · simp [lexLeB, show x.toNat < z.toNat by omega]
        · simp [lexLeB, show x.toNat < z.toNat by omega]
        · simp [lexLeB, show ¬ y.toNat < z.toNat by omega,
                show ¬ y.toNat = z.toNat by omega] at hbc
        · simp [lexLeB, show x.toNat < z.toNat by omega]
        · have hab2 : lexLeB xs ys = true := by
            simpa [lexLeB, show ¬ x.toNat < y.toNat by omega, h1] using hab
          have hbc2 : lexLeB ys zs = true := by
            simpa [lexLeB, show ¬ y.toNat < z.toNat by omega, h2] using hbc
          simp [lexLeB, show ¬ x.toNat < z.toNat by omega, show x.toNat = z.toNat by omega,
                ih ys zs hab2 hbc2]
        · simp [lexLeB, show ¬ y.toNat < z.toNat by omega,
                show ¬ y.toNat = z.toNat by omega] at hbc
        · simp [lexLeB, show ¬ x.toNat < y.toNat by omega,
                show ¬ x.toNat = y.toNat by omega] at hab
        · simp [lexLeB, show ¬ x.toNat < y.toNat by omega,
                show ¬ x.toNat = y.toNat by omega] at hab
        · simp [lexLeB, show ¬ x.toNat < y.toNat by omega,
                show ¬ x.toNat = y.toNat by omega] at hab

theorem lexLeB_antisymm : ∀ a b, lexLeB a b = true → lexLeB b a = true → a = b := by
  intro a
  induction a with
  | nil =>
    intro b _ hba
    cases b with
    | nil => rfl
    | cons y ys => simp [lexLeB] at hba
  | cons x xs ih =>
    intro b hab hba
    cases b with
    | nil => simp [lexLeB] at hab
    | cons y ys =>
      rcases Nat.lt_trichotomy x.toNat y.toNat with h1 | h1 | h1
      · simp [lexLeB, show ¬ y.toNat < x.toNat by omega,
              show ¬ y.toNat = x.toNat by omega] at hba
      · have hx : x = y := char_toNat_inj h1
        subst hx
        simp only [lexLeB, Nat.lt_irrefl, if_false, if_pos rfl] at hab hba
        rw [ih ys hab hba]
      · simp [lexLeB, show ¬ x.toNat < y.toNat by omega,
              show ¬ x.toNat = y.toNat by omega] at hab

instance : IsTotal String strLe :=
  ⟨fun a b => by unfold strLe; exact lexLeB_total a.data b.data⟩

instance : IsTrans String strLe :=
  ⟨fun a b c hab hbc => lexLeB_trans a.data b.data c.data hab hbc⟩

instance : IsAntisymm String strLe :=
  ⟨fun a b hab hba => String.ext (lexLeB_antisymm a.data b.data hab hba)⟩

instance : IsRefl String strLe :=
  ⟨fun a => lexLeB_refl a.data⟩

/-- Sorting is invariant under permutation of the input: the one theorem that
makes the output independent of the Python set enumeration order. -/
theorem insertionSort_eq_of_perm {l l' : List String} (h : List.Perm l l') :
    List.insertionSort strLe l = List.insertionSort strLe l' :=
  List.eq_of_perm_of_sorted
    ((List.perm_insertionSort strLe l).trans (h.trans (List.perm_insertionSort strLe l').symm))
    (List.sorted_insertionSort strLe l)
    (List.sorted_insertionSort strLe l')

/-! ### Set lemmas -/

theorem mem_setListAux (y : String) :
    ∀ (l seen : List String), y ∈ setListAux seen l ↔ (y ∈ l ∧ y ∉ seen) := by
  intro l
  induction l with
  | nil => intro seen; simp [setListAux]
  | cons x xs ih =>
    intro seen
    by_cases hx : x ∈ seen
    · rw [setListAux, if_pos hx, ih]
      simp only [List.mem_cons]
      constructor
      · rintro ⟨h1, h2⟩; exact ⟨Or.inr h1, h2⟩
      · rintro ⟨rfl | h1, h2⟩
        · exact absurd hx h2
        · exact ⟨h1, h2⟩
    · rw [setListAux, if_neg hx]
      simp only [List.mem_cons, ih, List.mem_cons]
      constructor
      · rintro (rfl | ⟨h1, h2⟩)
        · exact ⟨Or.inl rfl, hx⟩
        · exact ⟨Or.inr h1, fun hc => h2 (Or.inr hc)⟩
      · rintro ⟨rfl | h1, h2⟩
        · exact Or.inl rfl
        · by_cases hyx : y = x
          · exact Or.inl hyx
          · refine Or.inr ⟨h1, ?_⟩
            rintro (hc | hc)
            · exact hyx hc
            · exact h2 hc

theorem mem_setList {y : String} {l : List String} : y ∈ setList l ↔ y ∈ l := by
  rw [setList, mem_setListAux]
  simp

theorem setEq_iff {a b : List String} : setEq a b = true ↔ (∀ x, x ∈ a ↔ x ∈ b) := by
  unfold setEq
  rw [Bool.and_eq_true, List.all_eq_true, List.all_eq_true]
  constructor
  · rintro ⟨h1, h2⟩ x
    constructor
    · intro hx; simpa using h1 x hx
    · intro hx; simpa using h2 x hx
  · intro h
    exact ⟨fun x hx => by simpa using (h x).mp hx, fun x hx => by simpa using (h x).mpr hx⟩

theorem mem_symmDiffList {x : String} {a b : List String} :
    x ∈ symmDiffList a b ↔ ((x ∈ a ∧ x ∉ b) ∨ (x ∈ b ∧ x ∉ a)) := by
  unfold symmDiffList
  simp [List.mem_filter]

/-! ### Validation lemmas -/

theorem validateElems_eq_none_iff (properties : List String) (l : List (List (String × String))) :
    validateElems properties l = none ↔
      ∀ ps ∈ l, setEq (setList (ps.map Prod.fst)) properties = true := by
  induction l with
  | nil => simp [validateElems]
  | cons ps rest ih =>
    rw [validateElems]
    by_cases h : setEq (setList (ps.map Prod.fst)) properties = true
    · simp only [h, if_true, ih]
      constructor
      · intro hall qs hqs
        rcases List.mem_cons.mp hqs with rfl | hqs
        · exact h
        · exact hall qs hqs
      · intro hall qs hqs
        exact hall qs (List.mem_cons_of_mem ps hqs)
    · simp only [Bool.not_eq_true] at h
      rw [if_neg (by simp [h])]
      constructor
      · intro hc; exact absurd hc (Option.some_ne_none _)
      · intro hall
        exact absurd (hall ps (List.mem_cons_self ps rest)) (by simp [h])

theorem validateElems_first_mismatch (properties : List String)
    (l : List (List (String × String)))
    (hmis : ∃ ps ∈ l, setEq (setList (ps.map Prod.fst)) properties = false) :
    ∃ ps ∈ l, setEq (setList (ps.map Prod.fst)) properties = false ∧
      validateElems properties l =
        some (symmDiffList properties (setList (ps.map Prod.fst))) := by
  induction l with
  | nil => simp at hmis
  | cons qs rest ih =>
    by_cases h : setEq (setList (qs.map Prod.fst)) properties = true
    · have hmis2 : ∃ ps ∈ rest, setEq (setList (ps.map Prod.fst)) properties = false := by
        rcases hmis with ⟨ps, hps, hf⟩
        rcases List.mem_cons.mp hps with rfl | hps
        · rw [h] at hf; cases hf
        · exact ⟨ps, hps, hf⟩
      rcases ih hmis2 with ⟨ps, hps, hf, hval⟩
      refine ⟨ps, List.mem_cons_of_mem qs hps, hf, ?_⟩
      rw [validateElems, if_pos h]
      exact hval
    · simp only [Bool.not_eq_true] at h
      refine ⟨qs, List.mem_cons_self qs rest, h, ?_⟩
      rw [validateElems, if_neg (by simp [h])]

/-! ### Non-emptiness of parsed property names -/

theorem matchPropAt_name_ne_empty {cs : List Char} {pv : String × String} {after : List Char}
    (h : matchPropAt cs = some (pv, after)) : pv.1 ≠ "" := by
  obtain ⟨p1, p2⟩ := pv
  unfold matchPropAt at h
  split at h
  · exact absurd h (by simp)
  · split at h
    · exact absurd h (by simp)
    · split at h
      · simp only [Option.some.injEq, Prod.mk.injEq] at h
        obtain ⟨⟨h1, _⟩, _⟩ := h
        rw [← h1]
        intro hcon
        have h3 := congrArg String.data hcon
        simp at h3
      · exact absurd h (by simp)

theorem findPropsAux_names_ne_empty :
    ∀ (fuel : Nat) (cs : List Char) (pv : String × String),
      pv ∈ findPropsAux fuel cs → pv.1 ≠ "" := by
  intro fuel
  induction fuel with
  | zero => intro cs pv h; simp [findPropsAux] at h
  | succ n ih =>
    intro cs pv h
    cases cs with
    | nil => simp [findPropsAux] at h
    | cons c rest =>
      rw [findPropsAux] at h
      rcases hm : matchPropAt (c :: rest) with _ | ⟨pv2, after⟩
      · rw [hm] at h
        exact ih rest pv h
      · rw [hm] at h
        rcases List.mem_cons.mp h with rfl | h
        · exact matchPropAt_name_ne_empty hm
        · exact ih after pv h

/-- Every property name produced by the findall of pattern (\w+)\s*:\s*(.*)
is non-empty. -/
theorem prop_names_nonempty {body : List Char} {pv : String × String}
    (h : pv ∈ findProps body) : pv.1 ≠ "" :=
  findPropsAux_names_ne_empty body.length body pv h

/-! ### Trace characterizations of the generator -/

theorem generate_rootError (σ : List String → List String) (path content : String)
    (h : hasRootMarker content.data = false) :
    generate_cpp_class σ path content = [.print .rootError, .exitWith 1] := by
  unfold generate_cpp_class
  rw [h]
  rfl

theorem generate_noElements (σ : List String → List String) (path content : String)
    (hroot : hasRootMarker content.data = true) (h : findElems content.data = []) :
    generate_cpp_class σ path content = [.print .noElementsError, .exitWith 1] := by
  unfold generate_cpp_class
  rw [hroot, h]
  rfl

theorem generate_schemaError (σ : List String → List String) (path content : String)
    (e0 : List Char) (rest : List (List Char)) (d : List String)
    (hroot : hasRootMarker content.data = true)
    (helems : findElems content.data = e0 :: rest)
    (hval : validateElems (setList ((findProps e0).map Prod.fst)) (rest.map findProps) = some d) :
    generate_cpp_class σ path content = [.print (.schemaError (σ d)), .exitWith 1] := by
  unfold generate_cpp_class
  rw [hroot, helems]
  dsimp only
  rw [hval]
  rfl

theorem generate_crash (σ : List String → List String) (path content : String)
    (e0 : List Char) (rest : List (List Char))
    (hroot : hasRootMarker content.data = true)
    (helems : findElems content.data = e0 :: rest)
    (hval : validateElems (setList ((findProps e0).map Prod.fst)) (rest.map findProps) = none)
    (hsort : List.insertionSort strLe (σ (setList ((findProps e0).map Prod.fst))) = []) :
    generate_cpp_class σ path content = [.crash] := by
  unfold generate_cpp_class
  rw [hroot, helems]
  dsimp only
  rw [hval]
  dsimp only
  rw [hsort]
  rfl

theorem generate_success (σ : List String → List String) (path content : String)
    (e0 : List Char) (rest : List (List Char)) (p0 : String) (ps : List String)
    (hroot : hasRootMarker content.data = true)
    (helems : findElems content.data = e0 :: rest)
    (hval : validateElems (setList ((findProps e0).map Prod.fst)) (rest.map findProps) = none)
    (hsort : List.insertionSort strLe (σ (setList ((findProps e0).map Prod.fst))) = p0 :: ps) :
    generate_cpp_class σ path content =
      [.writeFile (headerPathOf path) (h_content_of (base_name_of path) (p0 :: ps)),
       .writeFile (cppPathOf path)
         (cpp_content_of (base_name_of path) (p0 :: ps)
           (valuesOf ((e0 :: rest).map findProps)) (e0 :: rest).length),
       .print (.generated (headerPathOf path) (cppPathOf path)),
       .exitWith 0] := by
  unfold generate_cpp_class
  rw [hroot, helems]
  dsimp only
  rw [hval]
  dsimp only
  rw [hsort]
  rfl

theorem first_big_case_opt_isSome {s : String} (h : s ≠ "") :
    (first_big_case_opt s).isSome = true := by
  unfold first_big_case_opt
  rcases hd : s.data with _ | ⟨c, cs⟩
  · exact absurd (String.ext (show s.data = "".data from hd)) h
  · rfl

/-! ### Claim theorems -/

/-- C10: role-identifier generation is total.  Every property name produced
by the findall of the pattern (\w+)\s*:\s*(.*) is non-empty, hence the access
to the first character inside first_big_case is in bounds: the IndexError
outcome (the none result of first_big_case_opt) is unreachable, and the total
wrapper agrees with the partial model. -/
theorem C10_role_generation_total (body : List Char) (pv : String × String)
    (h : pv ∈ findProps body) :
    pv.1 ≠ "" ∧ (first_big_case_opt pv.1).isSome = true := by
  have h1 := prop_names_nonempty h
  exact ⟨h1, first_big_case_opt_isSome h1⟩

theorem C10_role_generation_total_witness :
    (("a", "1") ∈ findProps ("a: 1".data)) ∧
      (("a", "1") : String × String).1 ≠ "" ∧
      (first_big_case_opt (("a", "1") : String × String).1).isSome = true :=
  ⟨by decide, C10_role_generation_total ("a: 1".data) ("a", "1") (by decide)⟩

/-- Every run of the generator produces one of five trace shapes. -/
theorem generate_shape (σ : List String → List String) (path content : String) :
    generate_cpp_class σ path content = [.print .rootError, .exitWith 1] ∨
    generate_cpp_class σ path content = [.print .noElementsError, .exitWith 1] ∨
    (∃ d, generate_cpp_class σ path content = [.print (.schemaError d), .exitWith 1]) ∨
    generate_cpp_class σ path content = [.crash] ∨
    (∃ hc cc, generate_cpp_class σ path content =
      [.writeFile (headerPathOf path) hc, .writeFile (cppPathOf path) cc,
       .print (.generated (headerPathOf path) (cppPathOf path)), .exitWith 0]) := by
  cases hroot : hasRootMarker content.data with
  | false => exact Or.inl (generate_rootError σ path content hroot)
  | true =>
    cases helems : findElems content.data with
    | nil => exact Or.inr (Or.inl (generate_noElements σ path content hroot helems))
    | cons e0 rest =>
      cases hval : validateElems (setList ((findProps e0).map Prod.fst)) (rest.map findProps) with
      | some d =>
        exact Or.inr (Or.inr (Or.inl
          ⟨σ d, generate_schemaError σ path content e0 rest d hroot helems hval⟩))
      | none =>
        cases hsort : List.insertionSort strLe (σ (setList ((findProps e0).map Prod.fst))) with
        | nil =>
          exact Or.inr (Or.inr (Or.inr (Or.inl
            (generate_crash σ path content e0 rest hroot helems hval hsort))))
        | cons p0 ps =>
          exact Or.inr (Or.inr (Or.inr (Or.inr
            ⟨_, _, generate_success σ path content e0 rest p0 ps hroot helems hval hsort⟩)))

/-- Every run of the whole program produces one of seven trace shapes. -/
theorem mainRun_shape (σ : List String → List String) (argv : List String)
    (fs : List (String × String)) :
    mainRun σ argv fs = [.print .usage, .exitWith 1] ∨
    (∃ q, mainRun σ argv fs = [.print (.fileNotExist q), .exitWith 1]) ∨
    mainRun σ argv fs = [.print .rootError, .exitWith 1] ∨
    mainRun σ argv fs = [.print .noElementsError, .exitWith 1] ∨
    (∃ d, mainRun σ argv fs = [.print (.schemaError d), .exitWith 1]) ∨
    mainRun σ argv fs = [.crash] ∨
    (∃ q hc cc, mainRun σ argv fs =
      [.writeFile (headerPathOf q) hc, .writeFile (cppPathOf q) cc,
       .print (.generated (headerPathOf q) (cppPathOf q)), .exitWith 0]) := by
  unfold mainRun
  by_cases h1 : argv.length ≠ 2
  · rw [if_pos h1]
    exact Or.inl rfl
  · rw [if_neg h1]
    dsimp only
    by_cases h2 : fsExists fs (argv.getD 1 "")
    · rw [if_pos h2]
      rcases generate_shape σ (argv.getD 1 "") (fsRead fs (argv.getD 1 "")) with
        h | h | ⟨d, h⟩ | h | ⟨hc, cc, h⟩
      · exact Or.inr (Or.inr (Or.inl h))
      · exact Or.inr (Or.inr (Or.inr (Or.inl h)))
      · exact Or.inr (Or.inr (Or.inr (Or.inr (Or.inl ⟨d, h⟩))))
      · exact Or.inr (Or.inr (Or.inr (Or.inr (Or.inr (Or.inl h)))))
      · exact Or.inr (Or.inr (Or.inr (Or.inr (Or.inr (Or.inr ⟨_, hc, cc, h⟩)))))
    · rw [if_neg h2]
      exact Or.inr (Or.inl ⟨_, rfl⟩)

/-- C2: the run is all-or-nothing.  Whenever the trace carries the failure
exit status, it carries no file write; and whenever the trace carries any
file write, it is the full success trace, writing both the header file and
the cpp file before reporting success and exiting with status zero. -/
theorem C2_all_or_nothing (σ : List String → List String) (argv : List String)
    (fs : List (String × String)) :
    (Effect.exitWith 1 ∈ mainRun σ argv fs →
      ∀ p c, Effect.writeFile p c ∉ mainRun σ argv fs) ∧
    ((∃ p c, Effect.writeFile p c ∈ mainRun σ argv fs) →
      ∃ q hc cc, mainRun σ argv fs =
        [Effect.writeFile (headerPathOf q) hc, Effect.writeFile (cppPathOf q) cc,
         Effect.print (Msg.generated (headerPathOf q) (cppPathOf q)), Effect.exitWith 0]) := by
  rcases mainRun_shape σ argv fs with
    h | ⟨q, h⟩ | h | h | ⟨d, h⟩ | h | ⟨q, hc, cc, h⟩ <;> rw [h] <;> constructor
  · intro _ p c; simp
  · rintro ⟨p, c, hmem⟩; simp at hmem
  · intro _ p c; simp
  · rintro ⟨p, c, hmem⟩; simp at hmem
  · intro _ p c; simp
  · rintro ⟨p, c, hmem⟩; simp at hmem
  · intro _ p c; simp
  · rintro ⟨p, c, hmem⟩; simp at hmem
  · intro _ p c; simp
  · rintro ⟨p, c, hmem⟩; simp at hmem
  · intro _ p c; simp
  · rintro ⟨p, c, hmem⟩; simp at hmem
  · intro hmem; simp at hmem
  · intro _; exact ⟨q, hc, cc, rfl⟩

theorem C2_all_or_nothing_witness :
    Effect.writeFile "x" "y" ∉ mainRun (fun l => l) ["prog"] [] :=
  (C2_all_or_nothing (fun l => l) ["prog"] []).1 (by decide) "x" "y"

/-- C7: the program prints a message to standard output and exits with status
1 exactly when the invocation has the wrong argument count, the input file
does not exist, the content has no ListModel root marker, no ListElement
block is found, or some later element has a property-name set different from
the schema.  (On the remaining paths it either succeeds with exit status 0,
or dies of an uncaught IndexError, which prints to standard error only.) -/
theorem C7_error_cases (σ : List String → List String) (argv : List String)
    (fs : List (String × String)) :
    ((∃ m, Effect.print m ∈ mainRun σ argv fs) ∧ Effect.exitWith 1 ∈ mainRun σ argv fs) ↔
      (argv.length ≠ 2 ∨
       fsExists fs (argv.getD 1 "") = false ∨
       hasRootMarker (fsRead fs (argv.getD 1 "")).data = false ∨
       findElems (fsRead fs (argv.getD 1 "")).data = [] ∨
       (∃ e0 rest d, findElems (fsRead fs (argv.getD 1 "")).data = e0 :: rest ∧
         validateElems (setList ((findProps e0).map Prod.fst)) (rest.map findProps) = some d)) := by
  by_cases h1 : argv.length ≠ 2
  · rw [show mainRun σ argv fs = [.print .usage, .exitWith 1] from by
      unfold mainRun; rw [if_pos h1]]
    constructor
    · intro _; exact Or.inl h1
    · intro _; exact ⟨⟨.usage, by simp⟩, by simp⟩
  · have hmain : mainRun σ argv fs =
        (if fsExists fs (argv.getD 1 "")
         then generate_cpp_class σ (argv.getD 1 "") (fsRead fs (argv.getD 1 ""))
         else [.print (.fileNotExist (argv.getD 1 "")), .exitWith 1]) := by
      unfold mainRun; rw [if_neg h1]
    by_cases h2 : fsExists fs (argv.getD 1 "")
    · rw [hmain, if_pos h2]
      cases hroot : hasRootMarker (fsRead fs (argv.getD 1 "")).data with
      | false =>
        rw [generate_rootError σ _ _ hroot]
        constructor
        · intro _; exact Or.inr (Or.inr (Or.inl rfl))
        · intro _; exact ⟨⟨.rootError, by simp⟩, by simp⟩
      | true =>
        cases helems : findElems (fsRead fs (argv.getD 1 "")).data with
        | nil =>
          rw [generate_noElements σ _ _ hroot helems]
          constructor
          · intro _; exact Or.inr (Or.inr (Or.inr (Or.inl rfl)))
          · intro _; exact ⟨⟨.noElementsError, by simp⟩, by simp⟩
        | cons e0 rest =>
          cases hval : validateElems (setList ((findProps e0).map Prod.fst))
              (rest.map findProps) with
          | some d =>
            rw [generate_schemaError σ _ _ e0 rest d hroot helems hval]
            constructor
            · intro _
              exact Or.inr (Or.inr (Or.inr (Or.inr ⟨e0, rest, d, rfl, hval⟩)))
            · intro _; exact ⟨⟨.schemaError (σ d), by simp⟩, by simp⟩
          | none =>
            refine iff_of_false ?_ ?_
            · cases hsort : List.insertionSort strLe (σ (setList ((findProps e0).map Prod.fst))) with
              | nil =>
                rw [generate_crash σ _ _ e0 rest hroot helems hval hsort]
                rintro ⟨⟨m, hm⟩, _⟩
                simp at hm
              | cons p0 ps =>
                rw [generate_success σ _ _ e0 rest p0 ps hroot helems hval hsort]
                rintro ⟨_, hex⟩
                simp at hex
            · rintro (hc | hc | hc | hc | ⟨f0, frest, fd, hc1, hc2⟩)
              · exact h1 hc
              · rw [h2] at hc; cases hc
              · cases hc
              · cases hc
              · injection hc1 with hc3 hc4
                subst hc3; subst hc4
                rw [hval] at hc2; cases hc2
    · rw [hmain, if_neg h2]
      constructor
      · intro _
        exact Or.inr (Or.inl (by simpa using h2))
      · intro _; exact ⟨⟨.fileNotExist (argv.getD 1 ""), by simp⟩, by simp⟩

/-- C6: generation is deterministic.  The only run-dependent ingredient of a
run is the enumeration order of the Python property set; for any two
enumeration oracles the generator writes exactly the same files with exactly
the same contents, because the property set is sorted before any emission. -/
theorem C6_deterministic (σ1 σ2 : List String → List String)
    (h1 : ∀ l, List.Perm (σ1 l) l) (h2 : ∀ l, List.Perm (σ2 l) l)
    (path content : String) (p c : String) :
    Effect.writeFile p c ∈ generate_cpp_class σ1 path content ↔
    Effect.writeFile p c ∈ generate_cpp_class σ2 path content := by
  cases hroot : hasRootMarker content.data with
  | false =>
    rw [generate_rootError σ1 _ _ hroot, generate_rootError σ2 _ _ hroot]
  | true =>
    cases helems : findElems content.data with
    | nil =>
      rw [generate_noElements σ1 _ _ hroot helems, generate_noElements σ2 _ _ hroot helems]
    | cons e0 rest =>
      cases hval : validateElems (setList ((findProps e0).map Prod.fst)) (rest.map findProps) with
      | some d =>
        rw [generate_schemaError σ1 _ _ e0 rest d hroot helems hval,
            generate_schemaError σ2 _ _ e0 rest d hroot helems hval]
        simp
      | none =>
        have hsorteq : List.insertionSort strLe (σ1 (setList ((findProps e0).map Prod.fst))) =
            List.insertionSort strLe (σ2 (setList ((findProps e0).map Prod.fst))) :=
          insertionSort_eq_of_perm ((h1 _).trans (h2 _).symm)
        cases hsort : List.insertionSort strLe (σ2 (setList ((findProps e0).map Prod.fst))) with
        | nil =>
          rw [generate_crash σ1 _ _ e0 rest hroot helems hval (hsorteq.trans hsort),
              generate_crash σ2 _ _ e0 rest hroot helems hval hsort]
        | cons p0 ps =>
          rw [generate_success σ1 _ _ e0 rest p0 ps hroot helems hval (hsorteq.trans hsort),
              generate_success σ2 _ _ e0 rest p0 ps hroot helems hval hsort]

theorem C6_deterministic_witness :
    Effect.writeFile "x" "y" ∈
        generate_cpp_class (fun l => l) "M.qml" "ListModel \x7b\nListElement \x7b a: 1 \x7d\n\x7d" ↔
      Effect.writeFile "x" "y" ∈
        generate_cpp_class (fun l => List.reverse l) "M.qml"
          "ListModel \x7b\nListElement \x7b a: 1 \x7d\n\x7d" :=
  C6_deterministic (fun l => l) (fun l => List.reverse l)
    (fun l => List.Perm.refl l) (fun l => List.reverse_perm l)
    "M.qml" "ListModel \x7b\nListElement \x7b a: 1 \x7d\n\x7d" "x" "y"

/-- C1: when some element after the first has a property-name set different
from the schema of the first element, the program prints the schema-mismatch
message carrying the symmetric difference of the schema and the name set of
(the first) such element, and exits with status 1; the reported list contains
every differing name, in particular every property present only in the later
element. -/
theorem C1_schema_mismatch_reported (σ : List String → List String)
    (hσ : ∀ l, List.Perm (σ l) l) (path content : String)
    (e0 : List Char) (rest : List (List Char))
    (hroot : hasRootMarker content.data = true)
    (helems : findElems content.data = e0 :: rest)
    (hmis : ∃ e ∈ rest, setEq (setList ((findProps e).map Prod.fst))
              (setList ((findProps e0).map Prod.fst)) = false) :
    ∃ e ∈ rest,
      setEq (setList ((findProps e).map Prod.fst)) (setList ((findProps e0).map Prod.fst)) = false ∧
      generate_cpp_class σ path content =
        [Effect.print (Msg.schemaError (σ (symmDiffList
            (setList ((findProps e0).map Prod.fst)) (setList ((findProps e).map Prod.fst))))),
         Effect.exitWith 1] ∧
      (∀ q, q ∈ σ (symmDiffList (setList ((findProps e0).map Prod.fst))
                    (setList ((findProps e).map Prod.fst))) ↔
          ((q ∈ (findProps e0).map Prod.fst ∧ q ∉ (findProps e).map Prod.fst) ∨
           (q ∈ (findProps e).map Prod.fst ∧ q ∉ (findProps e0).map Prod.fst))) := by
  have hmis2 : ∃ ps ∈ rest.map findProps,
      setEq (setList (ps.map Prod.fst)) (setList ((findProps e0).map Prod.fst)) = false := by
    rcases hmis with ⟨e, he, hf⟩
    exact ⟨findProps e, List.mem_map_of_mem findProps he, hf⟩
  obtain ⟨ps, hpsmem, hf, hvaleq⟩ :=
    validateElems_first_mismatch (setList ((findProps e0).map Prod.fst)) (rest.map findProps) hmis2
  obtain ⟨e, he, rfl⟩ := List.mem_map.mp hpsmem
  refine ⟨e, he, hf, ?_, ?_⟩
  · exact generate_schemaError σ path content e0 rest _ hroot helems hvaleq
  · intro q
    rw [(hσ _).mem_iff, mem_symmDiffList]
    constructor
    · rintro (⟨hq1, hq2⟩ | ⟨hq1, hq2⟩)
      · exact Or.inl ⟨mem_setList.mp hq1, fun hc => hq2 (mem_setList.mpr hc)⟩
      · exact Or.inr ⟨mem_setList.mp hq1, fun hc => hq2 (mem_setList.mpr hc)⟩
    · rintro (⟨hq1, hq2⟩ | ⟨hq1, hq2⟩)
      · exact Or.inl ⟨mem_setList.mpr hq1, fun hc => hq2 (mem_setList.mp hc)⟩
      · exact Or.inr ⟨mem_setList.mpr hq1, fun hc => hq2 (mem_setList.mp hc)⟩

theorem C1_schema_mismatch_reported_witness :
    ∃ e ∈ [" a: 2\nb: 3 ".data],
      setEq (setList ((findProps e).map Prod.fst))
        (setList ((findProps " a: 1 ".data).map Prod.fst)) = false ∧
      generate_cpp_class (fun l => l) "M.qml"
          "ListModel \x7b\nListElement \x7b a: 1 \x7d\nListElement \x7b a: 2\nb: 3 \x7d\n\x7d" =
        [Effect.print (Msg.schemaError ((fun l => l) (symmDiffList
            (setList ((findProps " a: 1 ".data).map Prod.fst))
            (setList ((findProps e).map Prod.fst))))),
         Effect.exitWith 1] ∧
      (∀ q, q ∈ (fun l => l) (symmDiffList (setList ((findProps " a: 1 ".data).map Prod.fst))
                    (setList ((findProps e).map Prod.fst))) ↔
          ((q ∈ (findProps " a: 1 ".data).map Prod.fst ∧ q ∉ (findProps e).map Prod.fst) ∨
           (q ∈ (findProps e).map Prod.fst ∧ q ∉ (findProps " a: 1 ".data).map Prod.fst))) :=
  C1_schema_mismatch_reported (fun l => l) (fun l => List.Perm.refl l) "M.qml"
    "ListModel \x7b\nListElement \x7b a: 1 \x7d\nListElement \x7b a: 2\nb: 3 \x7d\n\x7d"
    (" a: 1 ".data) [" a: 2\nb: 3 ".data] (by decide) (by decide)
    ⟨" a: 2\nb: 3 ".data, by decide, by decide⟩

/-- C3: on a well-formed input with a non-empty schema, the success trace
writes a header whose role enumerator list and member field list each carry
exactly one line per distinct property of the schema, both in the order of
the sorted property list (which is alphabetically sorted and a permutation of
the schema set), and the populateModel body carries exactly one insert line
per element, indexed in original source order. -/
theorem C3_counts_and_order (σ : List String → List String)
    (hσ : ∀ l, List.Perm (σ l) l) (path content : String)
    (e0 : List Char) (rest : List (List Char)) (p0 : String) (ps : List String)
    (hroot : hasRootMarker content.data = true)
    (helems : findElems content.data = e0 :: rest)
    (hval : validateElems (setList ((findProps e0).map Prod.fst)) (rest.map findProps) = none)
    (hsort : List.insertionSort strLe (σ (setList ((findProps e0).map Prod.fst))) = p0 :: ps) :
    generate_cpp_class σ path content =
      [.writeFile (headerPathOf path) (h_content_of (base_name_of path) (p0 :: ps)),
       .writeFile (cppPathOf path)
         (cpp_content_of (base_name_of path) (p0 :: ps)
           (valuesOf ((e0 :: rest).map findProps)) (e0 :: rest).length),
       .print (.generated (headerPathOf path) (cppPathOf path)),
       .exitWith 0] ∧
    List.Perm (p0 :: ps) (setList ((findProps e0).map Prod.fst)) ∧
    List.Sorted strLe (p0 :: ps) ∧
    (roleEnumLines (p0 :: ps)).length = (setList ((findProps e0).map Prod.fst)).length ∧
    (memberLines (p0 :: ps)).length = (setList ((findProps e0).map Prod.fst)).length ∧
    ((List.range (e0 :: rest).length).map
        (populateLine (valuesOf ((e0 :: rest).map findProps)) (p0 :: ps))).length
      = (e0 :: rest).length := by
  have hperm : List.Perm (p0 :: ps) (setList ((findProps e0).map Prod.fst)) := by
    rw [← hsort]
    exact (List.perm_insertionSort strLe _).trans (hσ _)
  have hsorted : List.Sorted strLe (p0 :: ps) := by
    rw [← hsort]
    exact List.sorted_insertionSort strLe _
  refine ⟨generate_success σ path content e0 rest p0 ps hroot helems hval hsort,
    hperm, hsorted, ?_, ?_, ?_⟩
  · rw [roleEnumLines, List.length_map, hperm.length_eq]
  · rw [memberLines, List.length_map, hperm.length_eq]
  · rw [List.length_map, List.length_range]

theorem C3_counts_and_order_witness :
    List.Sorted strLe ["a", "b"] ∧
    (roleEnumLines ["a", "b"]).length =
      (setList ((findProps " b: 1\na: 2 ".data).map Prod.fst)).length ∧
    ((List.range ([" b: 1\na: 2 ".data] : List (List Char)).length).map
        (populateLine (valuesOf ([" b: 1\na: 2 ".data].map findProps)) ["a", "b"])).length
      = ([" b: 1\na: 2 ".data] : List (List Char)).length := by
  have h := C3_counts_and_order (fun l => l) (fun l => List.Perm.refl l) "M.qml"
    "ListModel \x7b\nListElement \x7b b: 1\na: 2 \x7d\n\x7d"
    (" b: 1\na: 2 ".data) [] "a" ["b"] (by decide) (by decide) (by decide) (by decide)
  exact ⟨h.2.2.1, h.2.2.2.1, h.2.2.2.2.2⟩

/-- C5: on a well-formed input with a non-empty schema, the emitted rowCount
body returns the size of the container of the first entry of the sorted
property list, and that entry is the alphabetically least property of the
schema. -/
theorem C5_rowcount_uses_min (σ : List String → List String)
    (hσ : ∀ l, List.Perm (σ l) l) (path content : String)
    (e0 : List Char) (rest : List (List Char)) (p0 : String) (ps : List String)
    (hroot : hasRootMarker content.data = true)
    (helems : findElems content.data = e0 :: rest)
    (hval : validateElems (setList ((findProps e0).map Prod.fst)) (rest.map findProps) = none)
    (hsort : List.insertionSort strLe (σ (setList ((findProps e0).map Prod.fst))) = p0 :: ps) :
    (∃ hc, generate_cpp_class σ path content =
      [.writeFile (headerPathOf path) hc,
       .writeFile (cppPathOf path)
         (cpp_content_of (base_name_of path) (p0 :: ps)
           (valuesOf ((e0 :: rest).map findProps)) (e0 :: rest).length),
       .print (.generated (headerPathOf path) (cppPathOf path)),
       .exitWith 0]) ∧
    rowCountPart (base_name_of path) (p0 :: ps) =
      "// Returns the number of rows in the model\n" ++
      "int " ++ base_name_of path ++ "::rowCount(const QModelIndex &parent) const\n\x7b\n" ++
      "    if (parent.isValid())\n        return 0;\n" ++
      "    return static_cast<int>(m_" ++ p0 ++ "s.size());\n\x7d\n\n" ∧
    p0 ∈ setList ((findProps e0).map Prod.fst) ∧
    (∀ q ∈ setList ((findProps e0).map Prod.fst), strLe p0 q) := by
  have hperm : List.Perm (p0 :: ps) (setList ((findProps e0).map Prod.fst)) := by
    rw [← hsort]
    exact (List.perm_insertionSort strLe _).trans (hσ _)
  have hsorted : List.Sorted strLe (p0 :: ps) := by
    rw [← hsort]
    exact List.sorted_insertionSort strLe _
  refine ⟨⟨_, generate_success σ path content e0 rest p0 ps hroot helems hval hsort⟩,
    rfl, hperm.mem_iff.mp (List.mem_cons_self p0 ps), ?_⟩
  intro q hq
  rcases List.mem_cons.mp (hperm.mem_iff.mpr hq) with rfl | hq2
  · exact lexLeB_refl q.data
  · exact (List.sorted_cons.mp hsorted).1 q hq2

theorem C5_rowcount_uses_min_witness :
    "a" ∈ setList ((findProps " b: 1\na: 2 ".data).map Prod.fst) ∧
    (∀ q ∈ setList ((findProps " b: 1\na: 2 ".data).map Prod.fst), strLe "a" q) := by
  have h := C5_rowcount_uses_min (fun l => l) (fun l => List.Perm.refl l) "M.qml"
    "ListModel \x7b\nListElement \x7b b: 1\na: 2 \x7d\n\x7d"
    (" b: 1\na: 2 ".data) [] "a" ["b"] (by decide) (by decide) (by decide) (by decide)
  exact ⟨h.2.2.1, h.2.2.2⟩

/-- Every os.path.join result ends with the joined component. -/
theorem joinPath_eq_append (head comp : List Char) :
    ∃ pre, joinPath head comp = pre ++ comp := by
  unfold joinPath
  split
  · exact ⟨[], rfl⟩
  · split
    · exact ⟨[], rfl⟩
    · split
      · exact ⟨head, rfl⟩
      · exact ⟨head ++ ['/'], by simp⟩

/-- The two output paths of one run differ: one ends in the .h extension and
the other in the .cpp extension. -/
theorem headerPathOf_ne_cppPathOf (path : String) :
    headerPathOf path ≠ cppPathOf path := by
  intro h
  have hd : (headerPathOf path).data = (cppPathOf path).data := congrArg String.data h
  obtain ⟨pre1, h1⟩ :=
    joinPath_eq_append (dirnameL path.data) ((lowerStr (base_name_of path)).data ++ ".h".data)
  obtain ⟨pre2, h2⟩ :=
    joinPath_eq_append (dirnameL path.data) ((lowerStr (base_name_of path)).data ++ ".cpp".data)
  have hd2 : pre1 ++ ((lowerStr (base_name_of path)).data ++ ".h".data) =
      pre2 ++ ((lowerStr (base_name_of path)).data ++ ".cpp".data) := by
    rw [← h1, ← h2]
    exact hd
  have g1 := congrArg List.getLast? hd2
  rw [List.getLast?_append_of_ne_nil pre1 (by simp),
      List.getLast?_append_of_ne_nil pre2 (by simp),
      List.getLast?_append_of_ne_nil (lowerStr (base_name_of path)).data (by simp),
      List.getLast?_append_of_ne_nil (lowerStr (base_name_of path)).data (by simp)] at g1
  simp at g1

/-- C8: the success trace writes the header and source artifacts to the paths
obtained by joining the directory of the input path with the lower-cased base
name plus the .h and .cpp extensions; the class name inside both artifacts is
the base name with case preserved; a message naming both output paths is
printed; and applying the trace to any prior file system state leaves exactly
the fresh artifact contents bound at the two output paths, regardless of any
file previously stored there. -/
theorem C8_output_layout (σ : List String → List String) (path content : String)
    (e0 : List Char) (rest : List (List Char)) (p0 : String) (ps : List String)
    (hroot : hasRootMarker content.data = true)
    (helems : findElems content.data = e0 :: rest)
    (hval : validateElems (setList ((findProps e0).map Prod.fst)) (rest.map findProps) = none)
    (hsort : List.insertionSort strLe (σ (setList ((findProps e0).map Prod.fst))) = p0 :: ps) :
    generate_cpp_class σ path content =
      [.writeFile (headerPathOf path) (h_content_of (base_name_of path) (p0 :: ps)),
       .writeFile (cppPathOf path)
         (cpp_content_of (base_name_of path) (p0 :: ps)
           (valuesOf ((e0 :: rest).map findProps)) (e0 :: rest).length),
       .print (.generated (headerPathOf path) (cppPathOf path)),
       .exitWith 0] ∧
    headerPathOf path =
      ⟨joinPath (dirnameL path.data) ((lowerStr (base_name_of path)).data ++ ".h".data)⟩ ∧
    cppPathOf path =
      ⟨joinPath (dirnameL path.data) ((lowerStr (base_name_of path)).data ++ ".cpp".data)⟩ ∧
    base_name_of path = ⟨splitextBase (basenameL path.data)⟩ ∧
    (∀ fs0 : List (String × String),
      (applyEffects fs0 (generate_cpp_class σ path content)).lookup (headerPathOf path) =
          some (h_content_of (base_name_of path) (p0 :: ps)) ∧
      (applyEffects fs0 (generate_cpp_class σ path content)).lookup (cppPathOf path) =
          some (cpp_content_of (base_name_of path) (p0 :: ps)
            (valuesOf ((e0 :: rest).map findProps)) (e0 :: rest).length)) := by
  have htrace := generate_success σ path content e0 rest p0 ps hroot helems hval hsort
  refine ⟨htrace, rfl, rfl, rfl, ?_⟩
  intro fs0
  rw [htrace]
  have hne := headerPathOf_ne_cppPathOf path
  constructor
  · show (List.lookup (headerPathOf path)
      ((cppPathOf path, _) :: (headerPathOf path, _) :: fs0)) = _
    rw [List.lookup, beq_eq_false_iff_ne.mpr hne]
    rw [List.lookup, beq_self_eq_true]
  · show (List.lookup (cppPathOf path)
      ((cppPathOf path, _) :: (headerPathOf path, _) :: fs0)) = _
    rw [List.lookup, beq_self_eq_true]

theorem C8_output_layout_witness :
    (applyEffects [("m.h", "OLD")] (generate_cpp_class (fun l => l) "M.qml"
        "ListModel \x7b\nListElement \x7b b: 1\na: 2 \x7d\n\x7d")).lookup (headerPathOf "M.qml") =
      some (h_content_of (base_name_of "M.qml") ["a", "b"]) :=
  ((C8_output_layout (fun l => l) "M.qml"
      "ListModel \x7b\nListElement \x7b b: 1\na: 2 \x7d\n\x7d"
      (" b: 1\na: 2 ".data) [] "a" ["b"]
      (by decide) (by decide) (by decide) (by decide)).2.2.2.2 [("m.h", "OLD")]).1

/-- Raw value text a record defines for a property: the value of the first
pair carrying that name (the unique pair when the record defines each
property once). -/
def recordValue (e : List Char) (p : String) : String :=
  ((findProps e).lookup p).getD ""

theorem filter_map_snd_of_nodup (l : List (String × String)) (p : String)
    (hmem : p ∈ l.map Prod.fst) (hnd : (l.map Prod.fst).Nodup) :
    (l.filter (fun pv => decide (pv.1 = p))).map Prod.snd = [(l.lookup p).getD ""] := by
  induction l with
  | nil => simp at hmem
  | cons kv rest ih =>
    obtain ⟨k, v⟩ := kv
    simp only [List.map_cons, List.nodup_cons] at hnd
    by_cases hk : k = p
    · subst hk
      have hrest : rest.filter (fun pv => decide (pv.1 = k)) = [] := by
        rw [List.filter_eq_nil_iff]
        intro pv hpv
        simp only [decide_eq_true_eq]
        intro hc
        exact hnd.1 (hc ▸ List.mem_map_of_mem Prod.fst hpv)
      rw [List.filter_cons, if_pos (by simp), hrest]
      rw [List.lookup, beq_self_eq_true]
      rfl
    · have hmem2 : p ∈ rest.map Prod.fst := by
        rcases List.mem_cons.mp hmem with h | h
        · exact absurd h.symm hk
        · exact h
      rw [List.filter_cons, if_neg (by simp [hk]), ih hmem2 hnd.2]
      rw [List.lookup, beq_eq_false_iff_ne.mpr (fun hc => hk hc.symm)]

theorem valuesOf_uniform (parsed : List (List (String × String))) (p : String)
    (h : ∀ l ∈ parsed, p ∈ l.map Prod.fst ∧ (l.map Prod.fst).Nodup) :
    valuesOf parsed p = parsed.map (fun l => (l.lookup p).getD "") := by
  induction parsed with
  | nil => rfl
  | cons l rest ih =>
    have hl := h l (List.mem_cons_self l rest)
    unfold valuesOf
    rw [List.flatten_cons, List.filter_append, List.map_append,
        filter_map_snd_of_nodup l p hl.1 hl.2]
    rw [List.map_cons]
    show [(List.lookup p l).getD ""] ++ valuesOf rest p = _
    rw [List.singleton_append]
    congr 1
    exact ih (fun l2 hl2 => h l2 (List.mem_cons_of_mem l hl2))

/-- C4: on a well-formed input whose records each define every property once,
the arguments of the insert call emitted for row i are, for each schema
property in sorted schema order, the raw value text that record i defines for
that property, passed through the qsTr-to-tr substitution and otherwise
verbatim. -/
theorem C4_insert_arguments (σ : List String → List String)
    (hσ : ∀ l, List.Perm (σ l) l) (path content : String)
    (e0 : List Char) (rest : List (List Char)) (p0 : String) (ps : List String)
    (hroot : hasRootMarker content.data = true)
    (helems : findElems content.data = e0 :: rest)
    (hval : validateElems (setList ((findProps e0).map Prod.fst)) (rest.map findProps) = none)
    (hsort : List.insertionSort strLe (σ (setList ((findProps e0).map Prod.fst))) = p0 :: ps)
    (hdup : ∀ e ∈ e0 :: rest, ((findProps e).map Prod.fst).Nodup) :
    generate_cpp_class σ path content =
      [.writeFile (headerPathOf path) (h_content_of (base_name_of path) (p0 :: ps)),
       .writeFile (cppPathOf path)
         (cpp_content_of (base_name_of path) (p0 :: ps)
           (valuesOf ((e0 :: rest).map findProps)) (e0 :: rest).length),
       .print (.generated (headerPathOf path) (cppPathOf path)),
       .exitWith 0] ∧
    (∀ i, i < (e0 :: rest).length →
      insertCallArgs (valuesOf ((e0 :: rest).map findProps)) (p0 :: ps) i =
        (p0 :: ps).map
          (fun p => ⟨replaceQsTr (recordValue ((e0 :: rest).getD i []) p).data⟩)) := by
  have hperm : List.Perm (p0 :: ps) (setList ((findProps e0).map Prod.fst)) := by
    rw [← hsort]
    exact (List.perm_insertionSort strLe _).trans (hσ _)
  refine ⟨generate_success σ path content e0 rest p0 ps hroot helems hval hsort, ?_⟩
  intro i hi
  unfold insertCallArgs
  apply List.map_congr_left
  intro p hp
  congr 2
  have hcond : ∀ l ∈ (e0 :: rest).map findProps,
      p ∈ l.map Prod.fst ∧ (l.map Prod.fst).Nodup := by
    intro l hl
    obtain ⟨e, he, rfl⟩ := List.mem_map.mp hl
    refine ⟨?_, hdup e he⟩
    have hpschema : p ∈ setList ((findProps e0).map Prod.fst) := hperm.mem_iff.mp hp
    rcases List.mem_cons.mp he with rfl | he2
    · exact mem_setList.mp hpschema
    · have hseq := (validateElems_eq_none_iff _ _).mp hval (findProps e)
        (List.mem_map_of_mem findProps he2)
      exact mem_setList.mp ((setEq_iff.mp hseq p).mpr hpschema)
  rw [valuesOf_uniform ((e0 :: rest).map findProps) p hcond]
  have hi2 : i < ((e0 :: rest).map findProps).length := by simpa using hi
  rw [List.getD_eq_getElem?_getD, List.getElem?_map, List.getElem?_eq_getElem hi2]
  have hgetD : (e0 :: rest).getD i [] = (e0 :: rest)[i] := by
    rw [List.getD_eq_getElem?_getD, List.getElem?_eq_getElem hi]
    rfl
  rw [hgetD]
  simp only [List.getElem_map]
  rfl

theorem C4_insert_arguments_witness :
    insertCallArgs
        (valuesOf (([" b: 1\na: qsTr(\"x\") ".data, " a: 2\nb: 3 ".data] :
            List (List Char)).map findProps)) ["a", "b"] 0 =
      ["a", "b"].map
        (fun p => ⟨replaceQsTr
          (recordValue (([" b: 1\na: qsTr(\"x\") ".data, " a: 2\nb: 3 ".data] :
            List (List Char)).getD 0 []) p).data⟩) :=
  (C4_insert_arguments (fun l => l) (fun l => List.Perm.refl l) "M.qml"
      "ListModel \x7b\nListElement \x7b b: 1\na: qsTr(\"x\") \x7d\nListElement \x7b a: 2\nb: 3 \x7d\n\x7d"
      (" b: 1\na: qsTr(\"x\") ".data) [" a: 2\nb: 3 ".data] "a" ["b"]
      (by decide) (by decide) (by decide) (by decide) (by decide)).2 0 (by decide)

/-- Index inside the container of property p at which the first value
contributed by record j lands: the number of pairs named p across all
records before j. -/
def pOffset (parsed : List (List (String × String))) (p : String) (j : Nat) : Nat :=
  (parsed.take j).flatten.countP (fun pv => decide (pv.1 = p))

theorem valuesOf_eq_flatten (parsed : List (List (String × String))) (p : String) :
    valuesOf parsed p =
      (parsed.map (fun l => (l.filter (fun pv => decide (pv.1 = p))).map Prod.snd)).flatten := by
  induction parsed with
  | nil => rfl
  | cons l rest ih =>
    show ((l ++ rest.flatten).filter _).map Prod.snd = _
    rw [List.filter_append, List.map_append, List.map_cons, List.flatten_cons, ← ih]
    rfl

theorem sum_ge_length_succ {l : List Nat} {k : Nat} (hk : k < l.length)
    (h1 : ∀ x ∈ l, 1 ≤ x) (h2 : 2 ≤ l[k]) : l.length + 1 ≤ l.sum := by
  induction l generalizing k with
  | nil => simp at hk
  | cons x xs ih =>
    cases k with
    | zero =>
      have hxs : xs.length ≤ xs.sum :=
        List.length_le_sum_of_one_le xs (fun i hi => h1 i (List.mem_cons_of_mem x hi))
      simp only [List.getElem_cons_zero] at h2
      simp only [List.length_cons, List.sum_cons]
      omega
    | succ k2 =>
      have hk2 : k2 < xs.length := by simpa using hk
      have h22 : 2 ≤ xs[k2] := by simpa using h2
      have := ih hk2 (fun i hi => h1 i (List.mem_cons_of_mem x hi)) h22
      have hx1 : 1 ≤ x := h1 x (List.mem_cons_self x xs)
      simp only [List.length_cons, List.sum_cons]
      omega

theorem pOffset_gt (parsed : List (List (String × String))) (p : String) (j k : Nat)
    (hkj : k < j) (hj : j ≤ parsed.length)
    (hall : ∀ l ∈ parsed, 1 ≤ l.countP (fun pv => decide (pv.1 = p)))
    (h2 : 2 ≤ (parsed.getD k []).countP (fun pv => decide (pv.1 = p))) :
    j < pOffset parsed p j := by
  unfold pOffset
  rw [List.countP_flatten]
  have hkp : k < parsed.length := lt_of_lt_of_le hkj hj
  have hlen : ((parsed.take j).map
      (List.countP (fun pv => decide (pv.1 = p)))).length = j := by
    simp [List.length_take, Nat.min_eq_left hj]
  have hklen : k < ((parsed.take j).map
      (List.countP (fun pv => decide (pv.1 = p)))).length := by
    rw [hlen]; exact hkj
  have hidx : ((parsed.take j).map
      (List.countP (fun pv => decide (pv.1 = p))))[k] =
      (parsed.getD k []).countP (fun pv => decide (pv.1 = p)) := by
    rw [List.getElem_map, List.getElem_take]
    congr 1
    rw [List.getD_eq_getElem?_getD, List.getElem?_eq_getElem hkp]
    rfl
  have hsum := sum_ge_length_succ hklen
    (fun x hx => by
      obtain ⟨l, hl, rfl⟩ := List.mem_map.mp hx
      exact hall l (List.mem_of_mem_take hl))
    (by rw [hidx]; exact h2)
  rw [hlen] at hsum
  omega

theorem flatten_get_at_offset (L : List (List String)) (j : Nat) (hj : j < L.length)
    (hne : L[j] ≠ []) :
    L.flatten[((L.take j).flatten.length)]? = L[j].head? := by
  have key : L.flatten = (L.take j).flatten ++ (L.drop j).flatten := by
    rw [← List.flatten_append, List.take_append_drop]
  rw [key, List.getElem?_append_right (le_refl _), Nat.sub_self]
  rw [List.drop_eq_getElem_cons hj, List.flatten_cons]
  cases hL : L[j] with
  | nil => exact absurd hL hne
  | cons a as => simp

/-- C9: a duplicated property line inside one element survives validation
(name sets discard multiplicity), both duplicate values are appended to the
container of that property, so the container holds more entries than there
are records, and for every record after the duplicated one the value it
defines for that property sits in the container at an index strictly larger
than its row, so the emitted populateModel call for that row (which reads
index row) does not carry the value of that record. -/
theorem C9_duplicate_shifts_rows (_path content : String)
    (e0 : List Char) (rest : List (List Char)) (p : String) (k : Nat)
    (_hroot : hasRootMarker content.data = true)
    (_helems : findElems content.data = e0 :: rest)
    (huniform : ∀ e ∈ rest, setEq (setList ((findProps e).map Prod.fst))
        (setList ((findProps e0).map Prod.fst)) = true)
    (hk : k < (e0 :: rest).length)
    (hdup : 2 ≤ (findProps ((e0 :: rest).getD k [])).countP
        (fun pv => decide (pv.1 = p))) :
    validateElems (setList ((findProps e0).map Prod.fst)) (rest.map findProps) = none ∧
    (e0 :: rest).length < (valuesOf ((e0 :: rest).map findProps) p).length ∧
    (∀ j, k < j → j < (e0 :: rest).length →
      j < pOffset ((e0 :: rest).map findProps) p j ∧
      (valuesOf ((e0 :: rest).map findProps) p)[pOffset ((e0 :: rest).map findProps) p j]? =
        (((findProps ((e0 :: rest).getD j [])).filter
            (fun pv => decide (pv.1 = p))).map Prod.snd).head? ∧
      ((findProps ((e0 :: rest).getD j [])).filter
          (fun pv => decide (pv.1 = p))).map Prod.snd ≠ []) := by
  have hgetDk : (e0 :: rest).getD k [] = (e0 :: rest)[k] := by
    rw [List.getD_eq_getElem?_getD, List.getElem?_eq_getElem hk]; rfl
  have hrecmem : (e0 :: rest).getD k [] ∈ e0 :: rest := by
    rw [hgetDk]; exact List.getElem_mem hk
  have hpk : p ∈ (findProps ((e0 :: rest).getD k [])).map Prod.fst := by
    have hpos : 0 < (findProps ((e0 :: rest).getD k [])).countP
        (fun pv => decide (pv.1 = p)) := by omega
    obtain ⟨pv, hpv, hpv1⟩ := List.countP_pos_iff.mp hpos
    simp only [decide_eq_true_eq] at hpv1
    exact hpv1 ▸ List.mem_map_of_mem Prod.fst hpv
  have hpschema : p ∈ setList ((findProps e0).map Prod.fst) := by
    rcases List.mem_cons.mp hrecmem with heq | hmem
    · exact mem_setList.mpr (heq ▸ hpk)
    · exact (setEq_iff.mp (huniform _ hmem) p).mp (mem_setList.mpr hpk)
  have hpnames : ∀ e ∈ e0 :: rest, p ∈ (findProps e).map Prod.fst := by
    intro e he
    rcases List.mem_cons.mp he with rfl | he2
    · exact mem_setList.mp hpschema
    · exact mem_setList.mp ((setEq_iff.mp (huniform e he2) p).mpr hpschema)
  have hall : ∀ l ∈ (e0 :: rest).map findProps,
      1 ≤ l.countP (fun pv => decide (pv.1 = p)) := by
    intro l hl
    obtain ⟨e, he, rfl⟩ := List.mem_map.mp hl
    obtain ⟨pv, hpv, hpv1⟩ := List.mem_map.mp (hpnames e he)
    have : 0 < (findProps e).countP (fun pv => decide (pv.1 = p)) :=
      List.countP_pos_iff.mpr ⟨pv, hpv, by simp [hpv1]⟩
    omega
  have hklenp : k < ((e0 :: rest).map findProps).length := by simpa using hk
  have hgetDparsed : ((e0 :: rest).map findProps).getD k [] =
      findProps ((e0 :: rest).getD k []) := by
    rw [List.getD_eq_getElem?_getD, List.getElem?_eq_getElem hklenp]
    rw [hgetDk]
    simp only [List.getElem_map]
    rfl
  have hdup2 : 2 ≤ (((e0 :: rest).map findProps).getD k []).countP
      (fun pv => decide (pv.1 = p)) := by
    rw [hgetDparsed]; exact hdup
  refine ⟨?_, ?_, ?_⟩
  · rw [validateElems_eq_none_iff]
    intro ps hps
    obtain ⟨e, he, rfl⟩ := List.mem_map.mp hps
    exact huniform e he
  · have hvlen : (valuesOf ((e0 :: rest).map findProps) p).length =
        (((e0 :: rest).map findProps).map
          (List.countP (fun pv => decide (pv.1 = p)))).sum := by
      unfold valuesOf
      rw [List.length_map, ← List.countP_eq_length_filter, List.countP_flatten]
    have hklen2 : k < (((e0 :: rest).map findProps).map
        (List.countP (fun pv => decide (pv.1 = p)))).length := by
      simpa using hk
    have hidx2 : (((e0 :: rest).map findProps).map
        (List.countP (fun pv => decide (pv.1 = p))))[k] =
        (((e0 :: rest).map findProps).getD k []).countP (fun pv => decide (pv.1 = p)) := by
      rw [List.getElem_map]
      congr 1
      rw [List.getD_eq_getElem?_getD, List.getElem?_eq_getElem hklenp]
      rfl
    have hsum := sum_ge_length_succ hklen2 (fun x hx => by
        obtain ⟨l, hl, rfl⟩ := List.mem_map.mp hx
        exact hall l hl)
      (by rw [hidx2]; exact hdup2)
    rw [hvlen]
    simp only [List.length_map] at hsum ⊢
    simpa using hsum
  · intro j hkj hjN
    have hjp : j ≤ ((e0 :: rest).map findProps).length := by
      simp only [List.length_map]
      omega
    have hjlt : j < ((e0 :: rest).map findProps).length := by
      simpa using hjN
    have hgetDj : (e0 :: rest).getD j [] = (e0 :: rest)[j] := by
      rw [List.getD_eq_getElem?_getD, List.getElem?_eq_getElem hjN]; rfl
    refine ⟨pOffset_gt _ p j k hkj hjp hall hdup2, ?_, ?_⟩
    · rw [valuesOf_eq_flatten]
      have hoff : pOffset ((e0 :: rest).map findProps) p j =
          (((((e0 :: rest).map findProps).map
            (fun l => (l.filter (fun pv => decide (pv.1 = p))).map Prod.snd)).take j).flatten).length := by
        unfold pOffset
        have h1 : (((e0 :: rest).map findProps).map
            (fun l => (l.filter (fun pv => decide (pv.1 = p))).map Prod.snd)).take j =
            (((e0 :: rest).map findProps).take j).map
              (fun l => (l.filter (fun pv => decide (pv.1 = p))).map Prod.snd) := by
          rw [List.map_take]
        rw [h1, List.length_flatten, List.map_map, List.countP_flatten]
        apply congrArg
        apply List.map_congr_left
        intro l hl
        simp [List.countP_eq_length_filter, Function.comp]
      rw [hoff]
      have hjL : j < (((e0 :: rest).map findProps).map
          (fun l => (l.filter (fun pv => decide (pv.1 = p))).map Prod.snd)).length := by
        simpa using hjN
      have hLj : (((e0 :: rest).map findProps).map
          (fun l => (l.filter (fun pv => decide (pv.1 = p))).map Prod.snd))[j] =
          ((findProps ((e0 :: rest).getD j [])).filter
            (fun pv => decide (pv.1 = p))).map Prod.snd := by
        rw [List.getElem_map, List.getElem_map, hgetDj]
      have hne : (((e0 :: rest).map findProps).map
          (fun l => (l.filter (fun pv => decide (pv.1 = p))).map Prod.snd))[j] ≠ [] := by
        rw [hLj]
        intro hc
        have h0 := congrArg List.length hc
        rw [List.length_map, ← List.countP_eq_length_filter] at h0
        have h1 := hall (findProps ((e0 :: rest).getD j []))
          (by rw [hgetDj]; exact List.mem_map_of_mem findProps (List.getElem_mem hjN))
        simp only [List.length_nil] at h0
        omega
      rw [flatten_get_at_offset _ j hjL hne, hLj]
    · intro hc
      have h0 := congrArg List.length hc
      rw [List.length_map, ← List.countP_eq_length_filter] at h0
      have h1 := hall (findProps ((e0 :: rest).getD j []))
        (by rw [hgetDj]; exact List.mem_map_of_mem findProps (List.getElem_mem hjN))
      simp only [List.length_nil] at h0
      omega

theorem C9_duplicate_shifts_rows_witness :
    2 < pOffset ((["\na: 1\nb: 2\n".data, "\na: 3\na: 4\nb: 5\n".data, "\na: 6\nb: 7\n".data] :
        List (List Char)).map findProps) "a" 2 ∧
    (valuesOf ((["\na: 1\nb: 2\n".data, "\na: 3\na: 4\nb: 5\n".data, "\na: 6\nb: 7\n".data] :
        List (List Char)).map findProps) "a")[pOffset
          ((["\na: 1\nb: 2\n".data, "\na: 3\na: 4\nb: 5\n".data, "\na: 6\nb: 7\n".data] :
            List (List Char)).map findProps) "a" 2]? =
      (((findProps ((["\na: 1\nb: 2\n".data, "\na: 3\na: 4\nb: 5\n".data, "\na: 6\nb: 7\n".data] :
          List (List Char)).getD 2 [])).filter
            (fun pv => decide (pv.1 = "a"))).map Prod.snd).head? ∧
    ((findProps ((["\na: 1\nb: 2\n".data, "\na: 3\na: 4\nb: 5\n".data, "\na: 6\nb: 7\n".data] :
        List (List Char)).getD 2 [])).filter
          (fun pv => decide (pv.1 = "a"))).map Prod.snd ≠ [] :=
  (C9_duplicate_shifts_rows "M.qml"
      "ListModel \x7b\nListElement \x7b\na: 1\nb: 2\n\x7d\nListElement \x7b\na: 3\na: 4\nb: 5\n\x7d\nListElement \x7b\na: 6\nb: 7\n\x7d\n\x7d"
      ("\na: 1\nb: 2\n".data) ["\na: 3\na: 4\nb: 5\n".data, "\na: 6\nb: 7\n".data] "a" 1
      (by decide) (by decide) (by decide) (by decide) (by decide)).2.2 2
    (by decide) (by decide)
